import Mathlib

/-!
Verification of the CouchDB-backed versioned state store (`statecouchdb`):
composite-key codec, batched write application with the savepoint fencing
protocol, point/multi reads, range scans, and the two result scanners.

Go strings and byte slices are embedded as `List Nat` (one `Nat` per byte).
The backing document store (the `couchdb` client package, which lives outside
the verified sources) is modelled from the backing-store
contract as an explicit state machine with an error-injection environment and
an operation trace recording every round trip in order.
-/

deriving instance DecidableEq for Except

/-- A Go byte slice / string, one natural number per byte. -/
abbrev Bytes := List Nat

/-- Byte list for an ASCII string literal. -/
def strBytes (s : String) : Bytes := s.data.map Char.toNat

/-- Separator byte placed between namespace and key (`compositeKeySep = []byte{0x00}`). -/
def compositeKeySep : Bytes := [0]

/-- Sentinel byte used to close an open-ended namespace range (`lastKeyIndicator = byte(0x01)`). -/
def lastKeyIndicator : Nat := 1

/-- Fixed document identifier of the savepoint document (`savepointDocID = "statedb_savepoint"`). -/
def savepointDocID : Bytes := strBytes "statedb_savepoint"

/-- Composite key `ns ++ 0x00 ++ key`, from `constructCompositeKey`. -/
def constructCompositeKey (ns key : Bytes) : Bytes :=
  ns ++ compositeKeySep ++ key

/-- Inverse of `constructCompositeKey`, from `splitCompositeKey`: split at the first
occurrence of the separator byte (`bytes.SplitN(compositeKey, compositeKeySep, 2)`).
`none` models the index-out-of-range panic Go would hit when no separator is present. -/
def splitCompositeKey (compositeKey : Bytes) : Option (Bytes × Bytes) :=
  if 0 ∈ compositeKey then
    some (compositeKey.takeWhile (fun b => b != 0),
          (compositeKey.dropWhile (fun b => b != 0)).drop 1)
  else
    none

/-- Namespace part of a composite key (total companion of `splitCompositeKey`). -/
def nsPart (compositeKey : Bytes) : Bytes := compositeKey.takeWhile (fun b => b != 0)

/-- Key part of a composite key (total companion of `splitCompositeKey`). -/
def keyPart (compositeKey : Bytes) : Bytes :=
  (compositeKey.dropWhile (fun b => b != 0)).drop 1

/-- Strict bytewise lexicographic order on byte strings, as the backing store
orders document identifiers (Go string comparison). -/
def lexLt : Bytes → Bytes → Bool
  | [], [] => false
  | [], _ :: _ => true
  | _ :: _, [] => false
  | a :: as, b :: bs => if a < b then true else if a = b then lexLt as bs else false

/-- Reflexive bytewise lexicographic order on byte strings. -/
def lexLe : Bytes → Bytes → Bool
  | [], _ => true
  | _ :: _, [] => false
  | a :: as, b :: bs => if a < b then true else if a = b then lexLe as bs else false

/-- Little-endian decimal digits of `n`, with explicit fuel (structural recursion). -/
def decDigitsRev : Nat → Nat → List Nat
  | 0, _ => []
  | _ + 1, 0 => []
  | fuel + 1, n + 1 => ((n + 1) % 10) :: decDigitsRev fuel ((n + 1) / 10)

/-- ASCII decimal rendering of a natural number, as Go `encoding/json` prints a `uint64`. -/
def natToASCII (n : Nat) : Bytes :=
  if n = 0 then [48] else ((decDigitsRev n n).map (fun d => d + 48)).reverse

/-- Value of an ASCII decimal digit string. -/
def asciiToNat (ds : Bytes) : Nat :=
  ds.foldl (fun a c => a * 10 + (c - 48)) 0

/-- Whether a byte is an ASCII decimal digit. -/
def isDigitB (c : Nat) : Bool := decide (48 ≤ c) && decide (c ≤ 57)

/-- Match a literal byte sequence at the front of the input, returning the rest. -/
def dropPfx : Bytes → Bytes → Option Bytes
  | [], s => some s
  | _ :: _, [] => none
  | p :: ps, c :: cs => if p = c then dropPfx ps cs else none

/-- Savepoint document payload (`couchSavepointData`): block number, transaction
number, and the opaque change-sequence marker of the backing store. -/
structure CouchSavepointData where
  BlockNum : Nat
  TxNum : Nat
  UpdateSeq : Bytes
  deriving DecidableEq

/-- Modelled from the spec: serialization of the fixed savepoint document schema
`\x7bBlockNum, TxNum, UpdateSeq\x7d` as produced by Go `encoding/json` (the
`json.Marshal` call lives outside the verified sources); unsigned integers print
in decimal, the change-sequence marker as a quoted string. -/
def marshalSavepoint (sp : CouchSavepointData) : Bytes :=
  strBytes "\x7b\"BlockNum\":" ++ natToASCII sp.BlockNum ++
  strBytes ",\"TxNum\":" ++ natToASCII sp.TxNum ++
  strBytes ",\"UpdateSeq\":\"" ++ sp.UpdateSeq ++ [34, 125]

/-- Modelled from the spec: deserialization of the savepoint document payload
(`json.Unmarshal` into `couchSavepointData`, outside the verified sources);
`none` models a decode error on a payload not of the savepoint schema. -/
def unmarshalSavepoint (b : Bytes) : Option CouchSavepointData :=
  match dropPfx (strBytes "\x7b\"BlockNum\":") b with
  | none => none
  | some r1 =>
    let ds1 := r1.takeWhile isDigitB
    let r2 := r1.dropWhile isDigitB
    if ds1 = [] then none else
    match dropPfx (strBytes ",\"TxNum\":") r2 with
    | none => none
    | some r3 =>
      let ds2 := r3.takeWhile isDigitB
      let r4 := r3.dropWhile isDigitB
      if ds2 = [] then none else
      match dropPfx (strBytes ",\"UpdateSeq\":\"") r4 with
      | none => none
      | some r5 =>
        let seq := r5.takeWhile (fun c => c != 34)
        let r6 := r5.dropWhile (fun c => c != 34)
        if r6 = [34, 125] then some ⟨asciiToNat ds1, asciiToNat ds2, seq⟩ else none

/-- Logical commit point `version.Height`: (block number, transaction number). -/
structure Height where
  BlockNum : Nat
  TxNum : Nat
  deriving DecidableEq

/-- Binary attachment (`couchdb.Attachment`). -/
structure Attachment where
  Name : String
  ContentType : String
  AttachmentBytes : Bytes
  deriving DecidableEq

/-- A (namespace, key) pair (`statedb.CompositeKey`). -/
structure CompositeKey where
  Namespace : Bytes
  Key : Bytes
  deriving DecidableEq

/-- A value with its version (`statedb.VersionedValue`). -/
structure VersionedValue where
  Value : Bytes
  Version : Height
  deriving DecidableEq

/-- Modelled from the spec: a document held by the backing store, either a
structured JSON body or a set of named binary attachments. -/
structure StoredDoc where
  body : Option Bytes
  attachments : List Attachment
  deriving DecidableEq

/-- One row of a backing-store query result (`couchdb.QueryResult`): document id
and value bytes. -/
structure QueryResult where
  ID : Bytes
  Value : Bytes
  deriving DecidableEq

/-- One backing-store round trip, recorded in the order the store receives it. -/
inductive Op where
  | save (id : Bytes) (rev : Bytes) (body : Option Bytes) (atts : List Attachment)
  | flush
  | dbInfo
  | read (id : Bytes)
  deriving DecidableEq

/-- Modelled from the spec: observable state of one backing-store database —
its documents, its monotone change-sequence marker, a count of durability
flushes performed, and the chronological trace of round trips. -/
structure DBState where
  docs : List (Bytes × StoredDoc)
  updateSeq : Bytes
  flushCount : Nat
  trace : List Op

/-- Error-injection environment: outcome of every backing-store round trip and
the content classifier. `isJSON` is modelled from the spec ("parses as
syntactically valid JSON text", `couchdb.IsJSON` outside the verified sources);
`flushResp i` is the response of the `i`-th durability flush (error, or the
`Ok` flag); the `Err` fields inject transport/store errors per document id. -/
structure Env where
  isJSON : Bytes → Bool
  flushResp : Nat → Except String Bool
  dbInfoErr : Option String
  saveDocErr : Bytes → Option String
  readDocErr : Bytes → Option String

/-- Current document stored under an identifier, if any. -/
def lookupDoc (st : DBState) (id : Bytes) : Option StoredDoc :=
  (st.docs.find? (fun p => p.1 == id)).map (fun p => p.2)

/-- Modelled from the spec: `SaveDoc` — a blind overwrite of the document at
`id` (no optimistic-concurrency check against the passed revision). -/
def saveDoc (env : Env) (st : DBState) (id rev : Bytes) (body : Option Bytes)
    (atts : List Attachment) : Except String Bytes × DBState :=
  let st1 := { st with trace := st.trace ++ [Op.save id rev body atts] }
  match env.saveDocErr id with
  | some e => (.error e, st1)
  | none =>
      (.ok [],
        { st1 with docs := (id, ⟨body, atts⟩) :: st1.docs.filter (fun p => p.1 != id) })

/-- Modelled from the spec: `EnsureFullCommit` — the explicit durability fence;
the response (an error, or a response whose `Ok` flag may be false) is drawn
from the environment by flush index. -/
def ensureFullCommit (env : Env) (st : DBState) : Except String Bool × DBState :=
  (env.flushResp st.flushCount,
    { st with trace := st.trace ++ [Op.flush], flushCount := st.flushCount + 1 })

/-- Modelled from the spec: `GetDatabaseInfo` — exposes the current
change-sequence marker of the store. -/
def getDatabaseInfo (env : Env) (st : DBState) : Except String Bytes × DBState :=
  let st1 := { st with trace := st.trace ++ [Op.dbInfo] }
  match env.dbInfoErr with
  | some e => (.error e, st1)
  | none => (.ok st.updateSeq, st1)

/-- Bytes a point read of a stored document yields: the JSON body if present,
else the bytes of its attachment. -/
def docReadBytes (d : StoredDoc) : Option Bytes :=
  match d.body with
  | some b => some b
  | none => d.attachments.head?.map (fun a => a.AttachmentBytes)

/-- Modelled from the spec: `ReadDoc` — point read by identifier; a missing
document yields `none` bytes with no error (the 404 case). -/
def readDoc (env : Env) (st : DBState) (id : Bytes) :
    Except String (Option Bytes) × DBState :=
  let st1 := { st with trace := st.trace ++ [Op.read id] }
  match env.readDocErr id with
  | some e => (.error e, st1)
  | none =>
      match lookupDoc st id with
      | none => (.ok none, st1)
      | some d => (.ok (docReadBytes d), st1)

/-- Modelled from the spec: `ReadDocRange` — returns the documents whose
identifiers fall in the inclusive-start / exclusive-end lexicographic range,
capped at `limit` results. -/
def readDocRange (st : DBState) (startKey endKey : Bytes) (limit : Nat) :
    List QueryResult :=
  ((st.docs.filter (fun p => lexLe startKey p.1 && lexLt p.1 endKey)).take limit).map
    (fun p => ⟨p.1, (docReadBytes p.2).getD []⟩)

/-- Point read `VersionedDB.GetState`: encode the composite key, read the
document; absent maps to `none`, errors propagate; the version is the
hardcoded placeholder (1,1). -/
def GetState (env : Env) (st : DBState) (ns key : Bytes) :
    Except String (Option VersionedValue) × DBState :=
  let compositeKey := constructCompositeKey ns key
  match readDoc env st compositeKey with
  | (.error e, st1) => (.error e, st1)
  | (.ok none, st1) => (.ok none, st1)
  | (.ok (some docBytes), st1) => (.ok (some ⟨docBytes, ⟨1, 1⟩⟩), st1)

/-- Sequential point reads `VersionedDB.GetStateMultipleKeys`: order-preserving,
first error aborts. -/
def GetStateMultipleKeys (env : Env) (st : DBState) (ns : Bytes) :
    List Bytes → Except String (List (Option VersionedValue)) × DBState
  | [] => (.ok [], st)
  | key :: keys =>
      match GetState env st ns key with
      | (.error e, st1) => (.error e, st1)
      | (.ok val, st1) =>
          match GetStateMultipleKeys env st1 ns keys with
          | (.error e, st2) => (.error e, st2)
          | (.ok vals, st2) => (.ok (val :: vals), st2)

/-- Decoded range-scan record (`statedb.VersionedKV`). -/
structure VersionedKV where
  key : CompositeKey
  value : VersionedValue
  deriving DecidableEq

/-- Decoded ad-hoc-query record (`statedb.VersionedQueryRecord`). -/
structure VersionedQueryRecord where
  Namespace : Bytes
  Key : Bytes
  Version : Height
  Record : Bytes
  deriving DecidableEq

/-- Range-scan cursor (`kvScanner`): position, requested namespace, and the
pre-fetched result batch. The cursor starts at -1 (Go int). -/
structure KvScanner where
  cursor : Int
  ns : Bytes
  results : List QueryResult
  deriving DecidableEq

/-- Constructor `newKVScanner`. -/
def newKVScanner (ns : Bytes) (results : List QueryResult) : KvScanner :=
  ⟨-1, ns, results⟩

/-- Method `kvScanner.Next`: advance the cursor; past the end return the explicit
end-of-sequence signal `(nil, nil)`. The outer `none` models the Go runtime
panic of a negative index or of `splitCompositeKey` on an id with no
separator; neither is reachable from `newKVScanner` on well-formed ids. -/
def KvScanner.Next (scanner : KvScanner) :
    Option ((Option VersionedKV × Option String) × KvScanner) :=
  let c := scanner.cursor + 1
  let scanner1 := { scanner with cursor := c }
  if c ≥ (scanner.results.length : Int) then some ((none, none), scanner1)
  else if c < 0 then none
  else
    match scanner.results.get? c.toNat with
    | none => none
    | some selectedKV =>
        match splitCompositeKey selectedKV.ID with
        | none => none
        | some (_, key) =>
            some ((some ⟨⟨scanner.ns, key⟩, ⟨selectedKV.Value, ⟨1, 1⟩⟩⟩, none), scanner1)

/-- Ad-hoc-query cursor (`queryScanner`). -/
structure QueryScanner where
  cursor : Int
  results : List QueryResult
  deriving DecidableEq

/-- Constructor `newQueryScanner`. -/
def newQueryScanner (results : List QueryResult) : QueryScanner :=
  ⟨-1, results⟩

/-- Method `queryScanner.Next`: as `kvScanner.Next`, but both namespace and key are
recovered from the document identifier of the record. -/
def QueryScanner.Next (scanner : QueryScanner) :
    Option ((Option VersionedQueryRecord × Option String) × QueryScanner) :=
  let c := scanner.cursor + 1
  let scanner1 := { scanner with cursor := c }
  if c ≥ (scanner.results.length : Int) then some ((none, none), scanner1)
  else if c < 0 then none
  else
    match scanner.results.get? c.toNat with
    | none => none
    | some selectedResultRecord =>
        match splitCompositeKey selectedResultRecord.ID with
        | none => none
        | some (ns, key) =>
            some ((some ⟨ns, key, ⟨1, 1⟩, selectedResultRecord.Value⟩, none), scanner1)

/-- End bound used by `GetStateRangeScanIterator`: the encoded end key, with its
trailing separator byte rewritten to `lastKeyIndicator` when `endKey` is empty. -/
def rangeEndKey (ns endKey : Bytes) : Bytes :=
  let compositeEndKey := constructCompositeKey ns endKey
  if endKey = [] then compositeEndKey.set (compositeEndKey.length - 1) lastKeyIndicator
  else compositeEndKey

/-- Range scan `VersionedDB.GetStateRangeScanIterator`: startKey inclusive,
endKey exclusive, open-ended when `endKey` is empty; the backing store is
queried for at most 1000 documents and the batch is handed to a `kvScanner`. -/
def GetStateRangeScanIterator (st : DBState) (ns startKey endKey : Bytes) : KvScanner :=
  let compositeStartKey := constructCompositeKey ns startKey
  newKVScanner ns (readDocRange st compositeStartKey (rangeEndKey ns endKey) 1000)

/-- Savepoint write `VersionedDB.recordSavepoint`: flush, read the
change-sequence marker, write the savepoint document, flush again; a flush
that errors or reports non-ok yields the fixed error. -/
def recordSavepoint (env : Env) (st : DBState) (height : Height) :
    Except String Unit × DBState :=
  match ensureFullCommit env st with
  | (.error _, st1) => (.error "Failed to perform full commit", st1)
  | (.ok dbResponseOk, st1) =>
    if dbResponseOk ≠ true then (.error "Failed to perform full commit", st1)
    else
      match getDatabaseInfo env st1 with
      | (.error e, st2) => (.error e, st2)
      | (.ok updateSeq, st2) =>
        let savepointDoc : CouchSavepointData := ⟨height.BlockNum, height.TxNum, updateSeq⟩
        let savepointDocJSON := marshalSavepoint savepointDoc
        match saveDoc env st2 savepointDocID [] (some savepointDocJSON) [] with
        | (.error e, st3) => (.error e, st3)
        | (.ok _, st3) =>
          match ensureFullCommit env st3 with
          | (.error _, st4) => (.error "Failed to perform full commit", st4)
          | (.ok dbResponseOk2, st4) =>
            if dbResponseOk2 ≠ true then (.error "Failed to perform full commit", st4)
            else (.ok (), st4)

/-- Per-entry write loop of `VersionedDB.ApplyUpdates`: classify each value by
content and store it as a JSON document body or as a single binary attachment
named "valueBytes"; the first error aborts. -/
def applyBatch (env : Env) (st : DBState) :
    List (CompositeKey × VersionedValue) → Except String Unit × DBState
  | [] => (.ok (), st)
  | (ck, vv) :: rest =>
      let compositeKey := constructCompositeKey ck.Namespace ck.Key
      if env.isJSON vv.Value then
        match saveDoc env st compositeKey [] (some vv.Value) [] with
        | (.error e, st1) => (.error e, st1)
        | (.ok _, st1) => applyBatch env st1 rest
      else
        let attachment : Attachment := ⟨"valueBytes", "application/octet-stream", vv.Value⟩
        match saveDoc env st compositeKey [] none [attachment] with
        | (.error e, st1) => (.error e, st1)
        | (.ok _, st1) => applyBatch env st1 rest

/-- Batched write `VersionedDB.ApplyUpdates`: write every batch entry, then
record the savepoint at `height`. The batch is embedded as an association list
(Go map iteration order is unspecified). -/
def ApplyUpdates (env : Env) (st : DBState)
    (batch : List (CompositeKey × VersionedValue)) (height : Height) :
    Except String Unit × DBState :=
  match applyBatch env st batch with
  | (.error e, st1) => (.error e, st1)
  | (.ok _, st1) => recordSavepoint env st1 height

/-- Savepoint read `VersionedDB.GetLatestSavePoint`: returns the recorded
height, or height (0,0) — alone when the savepoint document is absent, and
together with the error when the read fails or the payload does not decode. -/
def GetLatestSavePoint (env : Env) (st : DBState) :
    (Height × Option String) × DBState :=
  match readDoc env st savepointDocID with
  | (.error e, st1) => ((⟨0, 0⟩, some e), st1)
  | (.ok none, st1) => ((⟨0, 0⟩, none), st1)
  | (.ok (some savepointJSON), st1) =>
      match unmarshalSavepoint savepointJSON with
      | none => ((⟨0, 0⟩, some "Failed to unmarshal savepoint data"), st1)
      | some savepointDoc => ((⟨savepointDoc.BlockNum, savepointDoc.TxNum⟩, none), st1)

/-- Backing-store operation a batch entry turns into, per the content
classification. -/
def writeOp (env : Env) (ck : CompositeKey) (vv : VersionedValue) : Op :=
  if env.isJSON vv.Value then
    Op.save (constructCompositeKey ck.Namespace ck.Key) [] (some vv.Value) []
  else
    Op.save (constructCompositeKey ck.Namespace ck.Key) [] none
      [⟨"valueBytes", "application/octet-stream", vv.Value⟩]

/-- Document a batch entry leaves at its composite key. -/
def entryDoc (env : Env) (vv : VersionedValue) : StoredDoc :=
  if env.isJSON vv.Value then ⟨some vv.Value, []⟩
  else ⟨none, [⟨"valueBytes", "application/octet-stream", vv.Value⟩]⟩

/-- Value a successful point read of namespace/key yields from a store state. -/
def readStateValue (st : DBState) (ns key : Bytes) : Option VersionedValue :=
  match (lookupDoc st (constructCompositeKey ns key)).bind docReadBytes with
  | none => none
  | some b => some ⟨b, ⟨1, 1⟩⟩

/-- All-success environment: every backing-store round trip succeeds; the toy
content classifier accepts exactly the JSON object text. -/
def okEnv : Env where
  isJSON := fun v => decide (v = [123, 125])
  flushResp := fun _ => .ok true
  dbInfoErr := none
  saveDocErr := fun _ => none
  readDocErr := fun _ => none

/-- Environment whose point reads all fail. -/
def errEnv : Env := { okEnv with readDocErr := fun _ => some "boom" }

/-- Environment whose first flush reports non-ok. -/
def flush1Env : Env := { okEnv with flushResp := fun _ => .ok false }

/-- Environment where only the second flush fails. -/
def flush2Env : Env :=
  { okEnv with flushResp := fun i => if i = 0 then .ok true else .error "boom" }

/-- Fresh store with no documents. -/
def emptySt : DBState := ⟨[], [55], 0, []⟩

/-- Store already holding a savepoint document with an undecodable payload. -/
def oldSpSt : DBState := ⟨[(savepointDocID, ⟨some [120], []⟩)], [55], 0, []⟩

/-- Environment where exactly the reads of one key fail. -/
def multiEnv : Env :=
  { okEnv with
    readDocErr := (fun id => if id = constructCompositeKey [110, 115] [98] then some "boom" else none) }

/-- Store holding three documents of namespace "ns" and one of namespace "nt",
used to exercise the open-ended range scan. -/
def rangeSt : DBState :=
  ⟨[(constructCompositeKey [110, 115] [107, 49], ⟨some [49], []⟩),
    (constructCompositeKey [110, 115] [122], ⟨some [50], []⟩),
    (constructCompositeKey [110, 116] [97], ⟨some [51], []⟩),
    (constructCompositeKey [110, 115] [97], ⟨some [52], []⟩)], [55], 0, []⟩

theorem takeWhile_append_all {p : Nat → Bool} {a b : Bytes}
    (ha : ∀ x ∈ a, p x = true) (hb : ∀ x, b.head? = some x → p x = false) :
    (a ++ b).takeWhile p = a ∧ (a ++ b).dropWhile p = b := by
  induction a with
  | nil =>
    cases b with
    | nil => simp [List.takeWhile, List.dropWhile]
    | cons x xs =>
      have := hb x rfl
      simp [List.takeWhile, List.dropWhile, this]
  | cons x xs ih =>
    have hx : p x = true := ha x (List.mem_cons_self x xs)
    have ih' := ih (fun y hy => ha y (List.mem_cons_of_mem x hy))
    simp [List.takeWhile, List.dropWhile, hx, ih'.1, ih'.2]

theorem splitCompositeKey_construct (ns key : Bytes) (hns : 0 ∉ ns) :
    splitCompositeKey (constructCompositeKey ns key) = some (ns, key) := by
  have hmem : 0 ∈ constructCompositeKey ns key := by
    simp [constructCompositeKey, compositeKeySep]
  have hsplit :
      (constructCompositeKey ns key).takeWhile (fun b => b != 0) = ns ∧
      (constructCompositeKey ns key).dropWhile (fun b => b != 0) = 0 :: key := by
    have h1 : constructCompositeKey ns key = ns ++ (0 :: key) := by
      simp [constructCompositeKey, compositeKeySep]
    rw [h1]
    apply takeWhile_append_all
    · intro x hx
      simp only [bne_iff_ne, ne_eq, decide_eq_true_eq]
      intro h0
      exact hns (h0 ▸ hx)
    · intro x hx
      simp only [List.head?_cons, Option.some.injEq] at hx
      subst hx
      simp
  simp [splitCompositeKey, hmem, hsplit.1, hsplit.2]

theorem lexLt_construct_iff (ns1 k1 ns2 k2 : Bytes) (h1 : 0 ∉ ns1) (h2 : 0 ∉ ns2) :
    lexLt (constructCompositeKey ns1 k1) (constructCompositeKey ns2 k2) = true ↔
      (lexLt ns1 ns2 = true ∨ (ns1 = ns2 ∧ lexLt k1 k2 = true)) := by
  have hck : ∀ ns k : Bytes, constructCompositeKey ns k = ns ++ (0 :: k) := by
    intro ns k; simp [constructCompositeKey, compositeKeySep]
  rw [hck, hck]
  clear hck
  induction ns1 generalizing ns2 with
  | nil =>
    cases ns2 with
    | nil => simp [lexLt]
    | cons b bs =>
      have hb : b ≠ 0 := fun h => h2 (h ▸ List.mem_cons_self b bs)
      have hb' : 0 < b := Nat.pos_of_ne_zero hb
      simp [lexLt, hb']
  | cons a as ih =>
    have ha : a ≠ 0 := fun h => h1 (h ▸ List.mem_cons_self a as)
    cases ns2 with
    | nil =>
      have ha' : ¬ a < 0 := Nat.not_lt_zero a
      simp [lexLt, ha', ha]
    | cons b bs =>
      have h1' : 0 ∉ as := fun h => h1 (List.mem_cons_of_mem a h)
      have h2' : 0 ∉ bs := fun h => h2 (List.mem_cons_of_mem b h)
      by_cases hab : a < b
      · simp [lexLt, hab]
      · by_cases haeb : a = b
        · subst haeb
          have := ih bs h1' h2'
          simp [lexLt, hab, this]
        · simp [lexLt, hab, haeb]

theorem decDigitsRev_foldr (fuel : Nat) :
    ∀ n, n ≤ fuel → (decDigitsRev fuel n).foldr (fun d a => a * 10 + d) 0 = n := by
  induction fuel with
  | zero =>
    intro n hn
    interval_cases n
    simp [decDigitsRev]
  | succ f ih =>
    intro n hn
    cases n with
    | zero => simp [decDigitsRev]
    | succ m =>
      have hdiv : (m + 1) / 10 ≤ f := by
        have h1 : (m + 1) / 10 < m + 1 := Nat.div_lt_self (Nat.succ_pos m) (by omega)
        omega
      simp only [decDigitsRev, List.foldr_cons, ih ((m + 1) / 10) hdiv]
      omega

theorem decDigitsRev_lt10 (fuel : Nat) :
    ∀ n d, d ∈ decDigitsRev fuel n → d < 10 := by
  induction fuel with
  | zero => intro n d hd; simp [decDigitsRev] at hd
  | succ f ih =>
    intro n d hd
    cases n with
    | zero => simp [decDigitsRev] at hd
    | succ m =>
      simp only [decDigitsRev, List.mem_cons] at hd
      rcases hd with h | h
      · subst h; exact Nat.mod_lt _ (by omega)
      · exact ih _ d h

theorem natToASCII_isDigit (n : Nat) : ∀ c ∈ natToASCII n, isDigitB c = true := by
  intro c hc
  unfold natToASCII at hc
  by_cases hn : n = 0
  · simp [hn] at hc
    subst hc
    decide
  · simp only [hn, if_false, List.mem_reverse, List.mem_map] at hc
    obtain ⟨d, hd, hdc⟩ := hc
    have := decDigitsRev_lt10 n n d hd
    subst hdc
    simp [isDigitB]
    omega

theorem natToASCII_ne_nil (n : Nat) : natToASCII n ≠ [] := by
  unfold natToASCII
  by_cases hn : n = 0
  · simp [hn]
  · obtain ⟨m, rfl⟩ := Nat.exists_eq_succ_of_ne_zero hn
    simp [decDigitsRev]

theorem asciiToNat_natToASCII (n : Nat) : asciiToNat (natToASCII n) = n := by
  unfold natToASCII asciiToNat
  by_cases hn : n = 0
  · simp [hn]
  · simp only [hn, if_false, List.foldl_reverse, List.foldr_map]
    have h : ∀ l : List Nat,
        l.foldr (fun x y => y * 10 + (x + 48 - 48)) 0 = l.foldr (fun d a => a * 10 + d) 0 := by
      intro l
      induction l with
      | nil => rfl
      | cons x xs ih => simp [List.foldr_cons, ih]
    rw [h]
    exact decDigitsRev_foldr n n (Nat.le_refl n)

theorem dropPfx_append (p r : Bytes) : dropPfx p (p ++ r) = some r := by
  induction p with
  | nil => rfl
  | cons x xs ih => simp [dropPfx, ih]

theorem unmarshal_marshal (sp : CouchSavepointData) (hseq : 34 ∉ sp.UpdateSeq) :
    unmarshalSavepoint (marshalSavepoint sp) = some sp := by
  obtain ⟨B, T, seq⟩ := sp
  have hm : marshalSavepoint ⟨B, T, seq⟩ =
      strBytes "\x7b\"BlockNum\":" ++ (natToASCII B ++
      (strBytes ",\"TxNum\":" ++ (natToASCII T ++
      (strBytes ",\"UpdateSeq\":\"" ++ (seq ++ [34, 125]))))) := by
    simp [marshalSavepoint, List.append_assoc]
  have hsplit1 := takeWhile_append_all (p := isDigitB)
      (a := natToASCII B) (b := strBytes ",\"TxNum\":" ++ (natToASCII T ++
        (strBytes ",\"UpdateSeq\":\"" ++ (seq ++ [34, 125]))))
      (natToASCII_isDigit B) (by intro x hx; simp [strBytes] at hx; subst hx; decide)
  have hsplit2 := takeWhile_append_all (p := isDigitB)
      (a := natToASCII T) (b := strBytes ",\"UpdateSeq\":\"" ++ (seq ++ [34, 125]))
      (natToASCII_isDigit T) (by intro x hx; simp [strBytes] at hx; subst hx; decide)
  have hsplit3 := takeWhile_append_all (p := fun c => c != 34)
      (a := seq) (b := [34, 125])
      (by intro x hx
          simp only [bne_iff_ne, ne_eq, decide_eq_true_eq]
          intro h34; exact hseq (h34 ▸ hx))
      (by intro x hx; simp at hx; subst hx; simp)
  rw [hm]
  unfold unmarshalSavepoint
  rw [dropPfx_append]
  simp only [hsplit1.1, hsplit1.2, natToASCII_ne_nil B, if_false, dropPfx_append,
    hsplit2.1, hsplit2.2, natToASCII_ne_nil T, dropPfx_append,
    hsplit3.1, hsplit3.2, if_true, asciiToNat_natToASCII]

theorem savepointDocID_ne_composite (ns key : Bytes) :
    constructCompositeKey ns key ≠ savepointDocID := by
  intro h
  have h0 : (0 : Nat) ∈ constructCompositeKey ns key := by
    simp [constructCompositeKey, compositeKeySep]
  rw [h] at h0
  revert h0
  decide

theorem saveDoc_scalars (env : Env) (st : DBState) (id rev : Bytes) (body : Option Bytes)
    (atts : List Attachment) :
    (saveDoc env st id rev body atts).2.updateSeq = st.updateSeq ∧
    (saveDoc env st id rev body atts).2.flushCount = st.flushCount ∧
    (saveDoc env st id rev body atts).2.trace = st.trace ++ [Op.save id rev body atts] := by
  cases h : env.saveDocErr id <;> simp [saveDoc, h]

theorem find?_filter_of_imp {α : Type} (l : List α) (q r : α → Bool)
    (h : ∀ p, q p = true → r p = true) : (l.filter r).find? q = l.find? q := by
  induction l with
  | nil => rfl
  | cons x xs ih =>
    by_cases hr : r x = true
    · cases hq : q x <;> simp [List.filter, hr, List.find?, hq, ih]
    · have hq : q x = false := by
        cases hq : q x
        · rfl
        · exact absurd (h x hq) hr
      simp [List.filter, Bool.of_not_eq_true hr, List.find?, hq, ih]

theorem lookupDoc_saveDoc_ne (env : Env) (st : DBState) (id rev : Bytes)
    (body : Option Bytes) (atts : List Attachment) (id' : Bytes) (h : id' ≠ id) :
    lookupDoc (saveDoc env st id rev body atts).2 id' = lookupDoc st id' := by
  cases henv : env.saveDocErr id with
  | some e => simp [saveDoc, henv, lookupDoc]
  | none =>
    simp only [saveDoc, henv, lookupDoc, List.find?]
    have hhd : ((id, (⟨body, atts⟩ : StoredDoc)).1 == id') = false := by
      simp only [beq_eq_false_iff_ne, ne_eq]
      exact fun hh => h hh.symm
    rw [hhd]
    congr 1
    apply find?_filter_of_imp
    intro p hp
    simp only [beq_iff_eq] at hp
    simp only [bne_iff_ne, ne_eq, decide_eq_true_eq, hp]
    exact h

theorem lookupDoc_saveDoc_self (env : Env) (st : DBState) (id rev : Bytes)
    (body : Option Bytes) (atts : List Attachment) (henv : env.saveDocErr id = none) :
    lookupDoc (saveDoc env st id rev body atts).2 id = some ⟨body, atts⟩ := by
  simp [saveDoc, henv, lookupDoc, List.find?]

theorem applyBatch_scalars (env : Env) (batch : List (CompositeKey × VersionedValue)) :
    ∀ st : DBState,
      (applyBatch env st batch).2.updateSeq = st.updateSeq ∧
      (applyBatch env st batch).2.flushCount = st.flushCount ∧
      lookupDoc (applyBatch env st batch).2 savepointDocID = lookupDoc st savepointDocID := by
  induction batch with
  | nil => intro st; simp [applyBatch]
  | cons e rest ih =>
    intro st
    obtain ⟨ck, vv⟩ := e
    have hne : savepointDocID ≠ constructCompositeKey ck.Namespace ck.Key :=
      fun h => savepointDocID_ne_composite ck.Namespace ck.Key h.symm
    by_cases hjson : env.isJSON vv.Value = true
    · cases hsd : saveDoc env st (constructCompositeKey ck.Namespace ck.Key) []
          (some vv.Value) [] with
      | mk r st1 =>
        have hsc := saveDoc_scalars env st (constructCompositeKey ck.Namespace ck.Key) []
          (some vv.Value) []
        have hlk := lookupDoc_saveDoc_ne env st (constructCompositeKey ck.Namespace ck.Key) []
          (some vv.Value) [] savepointDocID hne
        rw [hsd] at hsc hlk
        dsimp only at hsc hlk
        cases r with
        | error e' => simp [applyBatch, hjson, hsd, hsc.1, hsc.2.1, hlk]
        | ok r' =>
          have := ih st1
          simp [applyBatch, hjson, hsd, this.1, this.2.1, this.2.2, hsc.1, hsc.2.1, hlk]
    · cases hsd : saveDoc env st (constructCompositeKey ck.Namespace ck.Key) []
          none [⟨"valueBytes", "application/octet-stream", vv.Value⟩] with
      | mk r st1 =>
        have hsc := saveDoc_scalars env st (constructCompositeKey ck.Namespace ck.Key) []
          none [⟨"valueBytes", "application/octet-stream", vv.Value⟩]
        have hlk := lookupDoc_saveDoc_ne env st (constructCompositeKey ck.Namespace ck.Key) []
          none [⟨"valueBytes", "application/octet-stream", vv.Value⟩] savepointDocID hne
        rw [hsd] at hsc hlk
        dsimp only at hsc hlk
        cases r with
        | error e' => simp [applyBatch, hjson, hsd, hsc.1, hsc.2.1, hlk]
        | ok r' =>
          have := ih st1
          simp [applyBatch, hjson, hsd, this.1, this.2.1, this.2.2, hsc.1, hsc.2.1, hlk]

theorem find?_overwrite_ne (X : List (Bytes × StoredDoc)) (spd : StoredDoc)
    (sp id : Bytes) (hid : id ≠ sp) :
    ((sp, spd) :: X.filter (fun p => p.1 != sp)).find? (fun p => p.1 == id) =
      X.find? (fun p => p.1 == id) := by
  have hhd : ((sp, spd).1 == id) = false := by
    simp only [beq_eq_false_iff_ne, ne_eq]
    exact fun hh => hid hh.symm
  rw [List.find?, hhd]
  apply find?_filter_of_imp
  intro p hp
  simp only [beq_iff_eq] at hp
  simp only [bne_iff_ne, ne_eq, decide_eq_true_eq, hp]
  exact hid

theorem recordSavepoint_ok (env : Env) (st : DBState) (height : Height) (st' : DBState)
    (h : recordSavepoint env st height = (.ok (), st')) :
    st'.trace = st.trace ++ [Op.flush, Op.dbInfo,
      Op.save savepointDocID []
        (some (marshalSavepoint ⟨height.BlockNum, height.TxNum, st.updateSeq⟩)) [],
      Op.flush] ∧
    lookupDoc st' savepointDocID =
      some ⟨some (marshalSavepoint ⟨height.BlockNum, height.TxNum, st.updateSeq⟩), []⟩ ∧
    env.flushResp st.flushCount = .ok true ∧
    env.flushResp (st.flushCount + 1) = .ok true := by
  cases h1 : env.flushResp st.flushCount with
  | error e1 => simp [recordSavepoint, ensureFullCommit, h1] at h
  | ok b1 =>
    cases b1 with
    | false => simp [recordSavepoint, ensureFullCommit, h1] at h
    | true =>
      cases h2 : env.dbInfoErr with
      | some e2 => simp [recordSavepoint, ensureFullCommit, getDatabaseInfo, h1, h2] at h
      | none =>
        cases h3 : env.saveDocErr savepointDocID with
        | some e3 =>
          simp [recordSavepoint, ensureFullCommit, getDatabaseInfo, saveDoc, h1, h2, h3] at h
        | none =>
          cases h4 : env.flushResp (st.flushCount + 1) with
          | error e4 =>
            simp [recordSavepoint, ensureFullCommit, getDatabaseInfo, saveDoc,
              h1, h2, h3, h4] at h
          | ok b4 =>
            cases b4 with
            | false =>
              simp [recordSavepoint, ensureFullCommit, getDatabaseInfo, saveDoc,
                h1, h2, h3, h4] at h
            | true =>
              simp only [recordSavepoint, ensureFullCommit, getDatabaseInfo, saveDoc,
                h1, h2, h3, h4, ne_eq, not_true_eq_false, if_false, Prod.mk.injEq,
                true_and] at h
              subst h
              refine ⟨by simp, ?_, rfl, rfl⟩
              simp [lookupDoc, List.find?]

theorem recordSavepoint_flushFail (env : Env) (st : DBState) (height : Height)
    (h : env.flushResp st.flushCount ≠ .ok true) :
    (recordSavepoint env st height).1 = .error "Failed to perform full commit" ∧
    (recordSavepoint env st height).2.docs = st.docs := by
  cases h1 : env.flushResp st.flushCount with
  | error e => simp [recordSavepoint, ensureFullCommit, h1]
  | ok b =>
    cases b with
    | false => simp [recordSavepoint, ensureFullCommit, h1]
    | true => exact absurd h1 h

theorem recordSavepoint_docs (env : Env) (st : DBState) (height : Height) :
    (recordSavepoint env st height).2.docs = st.docs ∨
    (recordSavepoint env st height).2.docs =
      (savepointDocID,
        (⟨some (marshalSavepoint ⟨height.BlockNum, height.TxNum, st.updateSeq⟩), []⟩ : StoredDoc)) ::
        st.docs.filter (fun p => p.1 != savepointDocID) := by
  cases h1 : env.flushResp st.flushCount with
  | error e1 => left; simp [recordSavepoint, ensureFullCommit, h1]
  | ok b1 =>
    cases b1 with
    | false => left; simp [recordSavepoint, ensureFullCommit, h1]
    | true =>
      cases h2 : env.dbInfoErr with
      | some e2 => left; simp [recordSavepoint, ensureFullCommit, getDatabaseInfo, h1, h2]
      | none =>
        cases h3 : env.saveDocErr savepointDocID with
        | some e3 =>
          left
          simp [recordSavepoint, ensureFullCommit, getDatabaseInfo, saveDoc, h1, h2, h3]
        | none =>
          right
          cases h4 : env.flushResp (st.flushCount + 1) with
          | error e4 =>
            simp [recordSavepoint, ensureFullCommit, getDatabaseInfo, saveDoc, h1, h2, h3, h4]
          | ok b4 =>
            cases b4 with
            | false =>
              simp [recordSavepoint, ensureFullCommit, getDatabaseInfo, saveDoc, h1, h2, h3, h4]
            | true =>
              simp [recordSavepoint, ensureFullCommit, getDatabaseInfo, saveDoc, h1, h2, h3, h4]

theorem recordSavepoint_lookup (env : Env) (st : DBState) (height : Height) (id : Bytes)
    (hid : id ≠ savepointDocID) :
    lookupDoc (recordSavepoint env st height).2 id = lookupDoc st id := by
  rcases recordSavepoint_docs env st height with h | h
  · simp [lookupDoc, h]
  · simp only [lookupDoc, h]
    rw [find?_overwrite_ne _ _ _ _ hid]

theorem applyBatch_trace_ok (env : Env) (batch : List (CompositeKey × VersionedValue)) :
    ∀ st st' : DBState, applyBatch env st batch = (.ok (), st') →
      st'.trace = st.trace ++ batch.map (fun e => writeOp env e.1 e.2) := by
  induction batch with
  | nil =>
    intro st st' h
    simp only [applyBatch, Prod.mk.injEq] at h
    simp [h.2.symm]
  | cons e rest ih =>
    intro st st' h
    obtain ⟨ck, vv⟩ := e
    by_cases hjson : env.isJSON vv.Value = true
    · cases h3 : env.saveDocErr (constructCompositeKey ck.Namespace ck.Key) with
      | some e3 => simp [applyBatch, hjson, saveDoc, h3] at h
      | none =>
        simp only [applyBatch, hjson, if_true, saveDoc, h3] at h
        have := ih _ _ h
        simp only [this]
        simp [writeOp, hjson]
    · cases h3 : env.saveDocErr (constructCompositeKey ck.Namespace ck.Key) with
      | some e3 => simp [applyBatch, hjson, saveDoc, h3] at h
      | none =>
        simp only [applyBatch, hjson, Bool.false_eq_true, if_false, saveDoc, h3] at h
        have := ih _ _ h
        simp only [this]
        simp [writeOp, hjson]

theorem applyBatch_lookup_preserve (env : Env) (batch : List (CompositeKey × VersionedValue)) :
    ∀ (st : DBState) (id : Bytes),
      id ∉ batch.map (fun e => constructCompositeKey e.1.Namespace e.1.Key) →
      lookupDoc (applyBatch env st batch).2 id = lookupDoc st id := by
  induction batch with
  | nil => intro st id _; simp [applyBatch]
  | cons e rest ih =>
    intro st id hid
    obtain ⟨ck, vv⟩ := e
    simp only [List.map_cons, List.mem_cons, not_or] at hid
    obtain ⟨hid0, hidrest⟩ := hid
    by_cases hjson : env.isJSON vv.Value = true
    · cases h3 : env.saveDocErr (constructCompositeKey ck.Namespace ck.Key) with
      | some e3 =>
        simp only [applyBatch, hjson, if_true, saveDoc, h3]
        simp [lookupDoc]
      | none =>
        simp only [applyBatch, hjson, if_true, saveDoc, h3]
        rw [ih _ _ hidrest]
        simp only [lookupDoc]
        rw [find?_overwrite_ne _ _ _ _ hid0]
    · cases h3 : env.saveDocErr (constructCompositeKey ck.Namespace ck.Key) with
      | some e3 =>
        simp only [applyBatch, hjson, Bool.false_eq_true, if_false, saveDoc, h3]
        simp [lookupDoc]
      | none =>
        simp only [applyBatch, hjson, Bool.false_eq_true, if_false, saveDoc, h3]
        rw [ih _ _ hidrest]
        simp only [lookupDoc]
        rw [find?_overwrite_ne _ _ _ _ hid0]

theorem applyBatch_writes (env : Env) (batch : List (CompositeKey × VersionedValue)) :
    ∀ (st st' : DBState), applyBatch env st batch = (.ok (), st') →
      (batch.map (fun e => constructCompositeKey e.1.Namespace e.1.Key)).Nodup →
      ∀ ck vv, (ck, vv) ∈ batch →
        lookupDoc st' (constructCompositeKey ck.Namespace ck.Key) = some (entryDoc env vv) := by
  induction batch with
  | nil => intro st st' _ _ ck vv hmem; simp at hmem
  | cons e rest ih =>
    intro st st' h hnodup ck vv hmem
    obtain ⟨ck0, vv0⟩ := e
    simp only [List.map_cons, List.nodup_cons] at hnodup
    obtain ⟨hkey0, hnodup'⟩ := hnodup
    by_cases hjson : env.isJSON vv0.Value = true
    · cases h3 : env.saveDocErr (constructCompositeKey ck0.Namespace ck0.Key) with
      | some e3 => simp [applyBatch, hjson, saveDoc, h3] at h
      | none =>
        simp only [applyBatch, hjson, if_true, saveDoc, h3] at h
        rcases List.mem_cons.mp hmem with hhd | htl
        · have hck : ck = ck0 := congrArg Prod.fst hhd
          have hvv : vv = vv0 := congrArg Prod.snd hhd
          subst hck
          subst hvv
          have h2 := congrArg Prod.snd h
          dsimp only at h2
          rw [← h2, applyBatch_lookup_preserve env rest _ _ hkey0]
          simp [lookupDoc, List.find?, entryDoc, hjson]
        · exact ih _ _ h hnodup' ck vv htl
    · cases h3 : env.saveDocErr (constructCompositeKey ck0.Namespace ck0.Key) with
      | some e3 => simp [applyBatch, hjson, saveDoc, h3] at h
      | none =>
        simp only [applyBatch, hjson, Bool.false_eq_true, if_false, saveDoc, h3] at h
        rcases List.mem_cons.mp hmem with hhd | htl
        · have hck : ck = ck0 := congrArg Prod.fst hhd
          have hvv : vv = vv0 := congrArg Prod.snd hhd
          subst hck
          subst hvv
          have h2 := congrArg Prod.snd h
          dsimp only at h2
          rw [← h2, applyBatch_lookup_preserve env rest _ _ hkey0]
          simp [lookupDoc, List.find?, entryDoc, hjson]
        · exact ih _ _ h hnodup' ck vv htl

theorem GetState_state (env : Env) (st : DBState) (ns key : Bytes) :
    (GetState env st ns key).2 =
      { st with trace := st.trace ++ [Op.read (constructCompositeKey ns key)] } := by
  unfold GetState readDoc
  cases h : env.readDocErr (constructCompositeKey ns key) with
  | some e => simp [h]
  | none =>
    cases h2 : lookupDoc st (constructCompositeKey ns key) with
    | none => simp [h, h2]
    | some d => cases h3 : docReadBytes d <;> simp [h, h2, h3]

theorem GetState_ok (env : Env) (st : DBState) (ns key : Bytes)
    (h : env.readDocErr (constructCompositeKey ns key) = none) :
    (GetState env st ns key).1 = .ok (readStateValue st ns key) := by
  unfold GetState readDoc readStateValue
  cases h2 : lookupDoc st (constructCompositeKey ns key) with
  | none => simp [h, h2]
  | some d => cases h3 : docReadBytes d <;> simp [h, h2, h3]

theorem GetState_err (env : Env) (st : DBState) (ns key : Bytes) (e : String)
    (h : env.readDocErr (constructCompositeKey ns key) = some e) :
    (GetState env st ns key).1 = .error e := by
  unfold GetState readDoc
  simp [h]

theorem readStateValue_trace (st : DBState) (t : List Op) (ns key : Bytes) :
    readStateValue { st with trace := t } ns key = readStateValue st ns key := rfl

theorem GetStateMultipleKeys_ok (env : Env) (ns : Bytes) (keys : List Bytes) :
    ∀ st : DBState,
      (∀ k ∈ keys, env.readDocErr (constructCompositeKey ns k) = none) →
      GetStateMultipleKeys env st ns keys =
        (.ok (keys.map (fun k => readStateValue st ns k)),
          { st with trace := st.trace ++ keys.map (fun k => Op.read (constructCompositeKey ns k)) }) := by
  induction keys with
  | nil => intro st _; simp [GetStateMultipleKeys]
  | cons k ks ih =>
    intro st h
    have hk : env.readDocErr (constructCompositeKey ns k) = none :=
      h k (List.mem_cons_self k ks)
    have hpair : GetState env st ns k =
        (.ok (readStateValue st ns k),
          { st with trace := st.trace ++ [Op.read (constructCompositeKey ns k)] }) := by
      rw [Prod.ext_iff]
      exact ⟨GetState_ok env st ns k hk, GetState_state env st ns k⟩
    have hks : ∀ k' ∈ ks, env.readDocErr (constructCompositeKey ns k') = none :=
      fun k' hk' => h k' (List.mem_cons_of_mem k hk')
    simp only [GetStateMultipleKeys, hpair,
      ih { st with trace := st.trace ++ [Op.read (constructCompositeKey ns k)] } hks,
      readStateValue_trace]
    simp [List.append_assoc]

theorem GetStateMultipleKeys_err (env : Env) (ns : Bytes) (pre : List Bytes) :
    ∀ (st : DBState) (kbad : Bytes) (post : List Bytes) (e : String),
      (∀ k ∈ pre, env.readDocErr (constructCompositeKey ns k) = none) →
      env.readDocErr (constructCompositeKey ns kbad) = some e →
      GetStateMultipleKeys env st ns (pre ++ kbad :: post) =
        (.error e,
          { st with trace := st.trace ++
              (pre ++ [kbad]).map (fun k => Op.read (constructCompositeKey ns k)) }) := by
  induction pre with
  | nil =>
    intro st kbad post e _ hbad
    have hpair : GetState env st ns kbad =
        (.error e,
          { st with trace := st.trace ++ [Op.read (constructCompositeKey ns kbad)] }) := by
      rw [Prod.ext_iff]
      exact ⟨GetState_err env st ns kbad e hbad, GetState_state env st ns kbad⟩
    simp [GetStateMultipleKeys, hpair]
  | cons k pre' ih =>
    intro st kbad post e h hbad
    have hk : env.readDocErr (constructCompositeKey ns k) = none :=
      h k (List.mem_cons_self k pre')
    have hpair : GetState env st ns k =
        (.ok (readStateValue st ns k),
          { st with trace := st.trace ++ [Op.read (constructCompositeKey ns k)] }) := by
      rw [Prod.ext_iff]
      exact ⟨GetState_ok env st ns k hk, GetState_state env st ns k⟩
    have hpre' : ∀ k' ∈ pre', env.readDocErr (constructCompositeKey ns k') = none :=
      fun k' hk' => h k' (List.mem_cons_of_mem k hk')
    simp only [List.cons_append, GetStateMultipleKeys, hpair, List.append_eq]
    rw [ih { st with trace := st.trace ++ [Op.read (constructCompositeKey ns k)] } kbad post e
      hpre' hbad]
    simp [List.append_assoc]

theorem set_append_last (a : Bytes) (x y : Nat) :
    (a ++ [x]).set a.length y = a ++ [y] := by
  induction a with
  | nil => rfl
  | cons b bs ih => simp [List.set, ih]

theorem rangeEndKey_empty (ns : Bytes) :
    rangeEndKey ns [] = ns ++ [lastKeyIndicator] := by
  have h1 : constructCompositeKey ns [] = ns ++ [0] := by
    simp [constructCompositeKey, compositeKeySep]
  have h2 : (ns ++ [0]).length - 1 = ns.length := by simp
  simp only [rangeEndKey, h1, if_true, h2]
  exact set_append_last ns 0 lastKeyIndicator

theorem lexLt_nil_right (r : Bytes) : lexLt r [] = false := by
  cases r <;> rfl

theorem lex_range_iff (ns : Bytes) :
    ∀ (k1 id : Bytes),
      (lexLe (ns ++ 0 :: k1) id = true ∧ lexLt id (ns ++ [1]) = true) ↔
        ∃ k', id = ns ++ 0 :: k' ∧ lexLe k1 k' = true := by
  induction ns with
  | nil =>
    intro k1 id
    cases id with
    | nil => simp [lexLe]
    | cons c r =>
      constructor
      · rintro ⟨hle, hlt⟩
        have hc : c = 0 := by
          simp only [List.nil_append, lexLt] at hlt
          by_cases h1 : c < 1
          · omega
          · by_cases h2 : c = 1
            · subst h2
              simp [lexLt, lexLt_nil_right] at hlt
            · simp [h1, h2] at hlt
        subst hc
        refine ⟨r, rfl, ?_⟩
        simp only [List.nil_append, lexLe] at hle
        simpa using hle
      · rintro ⟨k', hk', hle⟩
        simp only [List.nil_append] at hk'
        injection hk' with hc hr
        subst hc; subst hr
        refine ⟨by simpa [lexLe] using hle, ?_⟩
        simp [lexLt]
  | cons a as ih =>
    intro k1 id
    cases id with
    | nil => simp [lexLe]
    | cons c r =>
      constructor
      · rintro ⟨hle, hlt⟩
        simp only [List.cons_append, lexLe, lexLt] at hle hlt
        have hca : c = a := by
          by_cases h1 : a < c
          · have h2 : ¬ c < a := by omega
            have h3 : ¬ c = a := by omega
            simp [h1, h2, h3] at hlt
          · by_cases h2 : a = c
            · omega
            · simp [h1, h2] at hle
        subst hca
        have h4 : ¬ c < c := lt_irrefl c
        simp only [h4, if_false, if_true, reduceIte] at hle hlt
        obtain ⟨k', hk', hlek⟩ := (ih k1 r).mp ⟨hle, hlt⟩
        exact ⟨k', by simp [hk'], hlek⟩
      · rintro ⟨k', hk', hlek⟩
        simp only [List.cons_append] at hk'
        injection hk' with hc hr
        subst hc
        have := (ih k1 r).mpr ⟨k', hr, hlek⟩
        have h4 : ¬ c < c := lt_irrefl c
        constructor
        · simp only [List.cons_append, lexLe, h4, if_false, reduceIte]
          exact this.1
        · simp only [List.cons_append, lexLt, h4, if_false, reduceIte]
          exact this.2

theorem ApplyUpdates_ok_parts (env : Env) (st : DBState)
    (batch : List (CompositeKey × VersionedValue)) (height : Height) (st' : DBState)
    (h : ApplyUpdates env st batch height = (.ok (), st')) :
    ∃ st1, applyBatch env st batch = (.ok (), st1) ∧
      recordSavepoint env st1 height = (.ok (), st') := by
  unfold ApplyUpdates at h
  cases hab : applyBatch env st batch with
  | mk r st1 =>
    rw [hab] at h
    cases r with
    | error e => simp at h
    | ok u =>
      cases u
      dsimp only at h
      exact ⟨st1, rfl, h⟩

/-- C1: on the success path, `ApplyUpdates(batch, height)` first issues one
blind overwrite per batch entry, and only then runs the savepoint protocol in
exactly this order: durable flush, read of the change-sequence marker, write
of the `SavepointRecord` built from `height` and that marker under the fixed
savepoint identifier, second durable flush — nothing skipped or reordered. -/
theorem claim_C1 (env : Env) (st : DBState) (batch : List (CompositeKey × VersionedValue))
    (height : Height) (st' : DBState)
    (h : ApplyUpdates env st batch height = (.ok (), st')) :
    st'.trace = st.trace ++ batch.map (fun e => writeOp env e.1 e.2) ++
      [Op.flush, Op.dbInfo,
        Op.save savepointDocID []
          (some (marshalSavepoint ⟨height.BlockNum, height.TxNum, st.updateSeq⟩)) [],
        Op.flush] := by
  obtain ⟨st1, hab, hrs⟩ := ApplyUpdates_ok_parts env st batch height st' h
  have htr1 := applyBatch_trace_ok env batch st st1 hab
  have hsc := applyBatch_scalars env batch st
  rw [hab] at hsc
  dsimp only at hsc
  have hrec := recordSavepoint_ok env st1 height st' hrs
  rw [hrec.1, htr1, hsc.1]

/-- C1 witness: a concrete one-entry batch applied to the empty store under the
all-success environment produces exactly the claimed operation trace. -/
theorem claim_C1_witness :
    (ApplyUpdates okEnv emptySt [(⟨[110, 115], [107]⟩, ⟨[123, 125], ⟨1, 1⟩⟩)] ⟨5, 2⟩).2.trace =
      emptySt.trace ++
        [((⟨[110, 115], [107]⟩ : CompositeKey), (⟨[123, 125], ⟨1, 1⟩⟩ : VersionedValue))].map
          (fun e => writeOp okEnv e.1 e.2) ++
        [Op.flush, Op.dbInfo,
          Op.save savepointDocID []
            (some (marshalSavepoint ⟨5, 2, emptySt.updateSeq⟩)) [],
          Op.flush] :=
  claim_C1 okEnv emptySt [(⟨[110, 115], [107]⟩, ⟨[123, 125], ⟨1, 1⟩⟩)] ⟨5, 2⟩ _ rfl

/-- C4: for separator-free namespaces, bytewise lexicographic order of encoded
composite keys coincides with namespace-then-key order; in particular keys of
one namespace order by plain key order and distinct namespaces never
interleave. -/
theorem claim_C4 (ns1 k1 ns2 k2 : Bytes) (h1 : 0 ∉ ns1) (h2 : 0 ∉ ns2) :
    lexLt (constructCompositeKey ns1 k1) (constructCompositeKey ns2 k2) = true ↔
      (lexLt ns1 ns2 = true ∨ (ns1 = ns2 ∧ lexLt k1 k2 = true)) :=
  lexLt_construct_iff ns1 k1 ns2 k2 h1 h2

/-- C4 witness: concrete instance comparing ("ns","z") against ("nt","a"). -/
theorem claim_C4_witness :
    ((0 : Nat) ∉ ([110, 115] : Bytes)) ∧ ((0 : Nat) ∉ ([110, 116] : Bytes)) ∧
    (lexLt (constructCompositeKey [110, 115] [122]) (constructCompositeKey [110, 116] [97]) = true ↔
      (lexLt [110, 115] [110, 116] = true ∨
        ([110, 115] = ([110, 116] : Bytes) ∧ lexLt [122] [97] = true))) :=
  ⟨by decide, by decide, claim_C4 [110, 115] [122] [110, 116] [97] (by decide) (by decide)⟩

/-- C10: decoding splits on the first separator occurrence, so the composite
key codec round-trips exactly for separator-free namespaces, even when the key
itself contains the separator byte. -/
theorem claim_C10 (ns key : Bytes) (hns : 0 ∉ ns) :
    splitCompositeKey (constructCompositeKey ns key) = some (ns, key) :=
  splitCompositeKey_construct ns key hns

/-- C10 witness: concrete round trip with a separator byte inside the key. -/
theorem claim_C10_witness :
    ((0 : Nat) ∉ ([110, 115] : Bytes)) ∧
    splitCompositeKey (constructCompositeKey [110, 115] [107, 0, 108]) =
      some ([110, 115], [107, 0, 108]) :=
  ⟨by decide, claim_C10 [110, 115] [107, 0, 108] (by decide)⟩

/-- C6: a point read whose document is missing (and whose round trip does not
error) yields the explicit absent result `.ok none`, distinct from an error;
a transport/store error is propagated to the caller unchanged. -/
theorem claim_C6 (env : Env) (st : DBState) (ns key : Bytes) :
    (env.readDocErr (constructCompositeKey ns key) = none →
      lookupDoc st (constructCompositeKey ns key) = none →
      (GetState env st ns key).1 = .ok none) ∧
    (∀ e, env.readDocErr (constructCompositeKey ns key) = some e →
      (GetState env st ns key).1 = .error e) := by
  constructor
  · intro h1 h2
    rw [GetState_ok env st ns key h1]
    simp [readStateValue, h2]
  · intro e he
    exact GetState_err env st ns key e he

/-- C6 witness: absent key on the empty store, and an injected transport error
propagated verbatim. -/
theorem claim_C6_witness :
    (GetState okEnv emptySt [110, 115] [107]).1 = .ok none ∧
    (GetState errEnv emptySt [110, 115] [107]).1 = .error "boom" :=
  ⟨(claim_C6 okEnv emptySt [110, 115] [107]).1 rfl rfl,
   (claim_C6 errEnv emptySt [110, 115] [107]).2 "boom" rfl⟩

theorem GetLatestSavePoint_found (env : Env) (st : DBState) (J : Bytes)
    (hr : env.readDocErr savepointDocID = none)
    (hl : lookupDoc st savepointDocID = some ⟨some J, []⟩) :
    (GetLatestSavePoint env st).1 =
      (match unmarshalSavepoint J with
        | none => (⟨0, 0⟩, some "Failed to unmarshal savepoint data")
        | some sp => (⟨sp.BlockNum, sp.TxNum⟩, none)) := by
  unfold GetLatestSavePoint readDoc
  simp only [hr, hl, docReadBytes]
  cases unmarshalSavepoint J <;> simp

/-- C2: after a successful `ApplyUpdates(batch, height)` (with a readable
savepoint document — and, as an artifact of the modelled serializer, a
change-sequence marker without a quote byte), `GetLatestSavePoint` returns
exactly `height` with no error; on a store without a savepoint document it
returns height (0,0) with no error; and on an undecodable savepoint payload it
returns (0,0) together with the decode error. -/
theorem claim_C2 :
    (∀ (env : Env) (st : DBState) (batch : List (CompositeKey × VersionedValue))
        (height : Height) (st' : DBState),
      ApplyUpdates env st batch height = (.ok (), st') →
      env.readDocErr savepointDocID = none →
      (34 : Nat) ∉ st.updateSeq →
      (GetLatestSavePoint env st').1 = (height, none)) ∧
    (∀ (env : Env) (st : DBState),
      env.readDocErr savepointDocID = none →
      lookupDoc st savepointDocID = none →
      (GetLatestSavePoint env st).1 = (⟨0, 0⟩, none)) ∧
    (∀ (env : Env) (st : DBState) (d : StoredDoc) (b : Bytes),
      env.readDocErr savepointDocID = none →
      lookupDoc st savepointDocID = some d →
      docReadBytes d = some b →
      unmarshalSavepoint b = none →
      ∃ e, (GetLatestSavePoint env st).1 = (⟨0, 0⟩, some e)) := by
  refine ⟨?_, ?_, ?_⟩
  · intro env st batch height st' h hread hseq
    obtain ⟨st1, hab, hrs⟩ := ApplyUpdates_ok_parts env st batch height st' h
    have hsc := applyBatch_scalars env batch st
    rw [hab] at hsc
    dsimp only at hsc
    have hrec := recordSavepoint_ok env st1 height st' hrs
    have hlk := hrec.2.1
    rw [hsc.1] at hlk
    rw [GetLatestSavePoint_found env st' _ hread hlk,
      unmarshal_marshal ⟨height.BlockNum, height.TxNum, st.updateSeq⟩ hseq]
  · intro env st h1 h2
    unfold GetLatestSavePoint readDoc
    simp [h1, h2]
  · intro env st d b h1 h2 h3 h4
    unfold GetLatestSavePoint readDoc
    simp only [h1, h2, h3, h4]
    exact ⟨"Failed to unmarshal savepoint data", rfl⟩

/-- C2 witness: a concrete successful commit at height (5,2) is read back
exactly; the empty store reports (0,0) with no error; a garbage savepoint
payload reports (0,0) with a decode error. -/
theorem claim_C2_witness :
    (GetLatestSavePoint okEnv
        (ApplyUpdates okEnv emptySt [(⟨[110, 115], [107]⟩, ⟨[123, 125], ⟨1, 1⟩⟩)] ⟨5, 2⟩).2).1 =
      (⟨5, 2⟩, none) ∧
    (GetLatestSavePoint okEnv emptySt).1 = (⟨0, 0⟩, none) ∧
    (∃ e, (GetLatestSavePoint okEnv oldSpSt).1 = (⟨0, 0⟩, some e)) :=
  ⟨claim_C2.1 okEnv emptySt [(⟨[110, 115], [107]⟩, ⟨[123, 125], ⟨1, 1⟩⟩)] ⟨5, 2⟩ _
      rfl rfl (by decide),
   claim_C2.2.1 okEnv emptySt rfl rfl,
   claim_C2.2.2 okEnv oldSpSt ⟨some [120], []⟩ [120] rfl rfl rfl rfl⟩

theorem lookupDoc_eq_of_docs {st st' : DBState} (h : st.docs = st'.docs) (id : Bytes) :
    lookupDoc st id = lookupDoc st' id := by
  simp [lookupDoc, h]

/-- C3 (amended): if the durability flush preceding the savepoint write fails
(error or non-ok), `ApplyUpdates` returns an error and the stored savepoint
document is left in its prior state; and whenever `ApplyUpdates` succeeds,
both durability flushes reported ok — so a failing flush always surfaces as an
error. (The "prior state" guarantee of the original claim does not extend to the
second flush: by then the savepoint document has already been overwritten; see
the counterexample.) -/
theorem claim_C3 (env : Env) (st : DBState) (batch : List (CompositeKey × VersionedValue))
    (height : Height) :
    (env.flushResp st.flushCount ≠ .ok true →
      (∃ e, (ApplyUpdates env st batch height).1 = .error e) ∧
      lookupDoc (ApplyUpdates env st batch height).2 savepointDocID =
        lookupDoc st savepointDocID) ∧
    (∀ u, (ApplyUpdates env st batch height).1 = .ok u →
      env.flushResp st.flushCount = .ok true ∧
      env.flushResp (st.flushCount + 1) = .ok true) := by
  have hsc := applyBatch_scalars env batch st
  cases hab : applyBatch env st batch with
  | mk r st1 =>
    rw [hab] at hsc
    dsimp only at hsc
    cases r with
    | error e =>
      constructor
      · intro _
        refine ⟨⟨e, ?_⟩, ?_⟩
        · simp [ApplyUpdates, hab]
        · simp only [ApplyUpdates, hab]
          exact hsc.2.2
      · intro u hu
        simp [ApplyUpdates, hab] at hu
    | ok u0 =>
      cases u0
      constructor
      · intro hfail
        have hfail1 : env.flushResp st1.flushCount ≠ .ok true := by
          rw [hsc.2.1]; exact hfail
        have hrf := recordSavepoint_flushFail env st1 height hfail1
        refine ⟨⟨"Failed to perform full commit", ?_⟩, ?_⟩
        · simp only [ApplyUpdates, hab]
          exact hrf.1
        · simp only [ApplyUpdates, hab]
          rw [lookupDoc_eq_of_docs hrf.2 savepointDocID]
          exact hsc.2.2
      · intro u hok
        simp only [ApplyUpdates, hab] at hok
        have hpair : recordSavepoint env st1 height =
            (.ok (), (recordSavepoint env st1 height).2) := by
          rw [Prod.ext_iff]
          cases u
          exact ⟨hok, rfl⟩
        have hrec := recordSavepoint_ok env st1 height _ hpair
        rw [hsc.2.1] at hrec
        exact ⟨hrec.2.2.1, hrec.2.2.2⟩

/-- C3 counterexample: with only the second durability flush failing on an
empty batch, `ApplyUpdates` returns an error, yet the savepoint document is
NOT left in its prior state — it already holds the newly written record, so
the claim as stated is false. -/
theorem claim_C3_counterexample :
    (ApplyUpdates flush2Env oldSpSt [] ⟨5, 2⟩).1 = .error "Failed to perform full commit" ∧
    lookupDoc (ApplyUpdates flush2Env oldSpSt [] ⟨5, 2⟩).2 savepointDocID ≠
      lookupDoc oldSpSt savepointDocID := by
  constructor
  · rfl
  · decide

/-- C3 witness: with the first flush reporting non-ok, `ApplyUpdates` on the
empty store returns an error and the (absent) savepoint document is unchanged. -/
theorem claim_C3_witness :
    (flush1Env.flushResp emptySt.flushCount ≠ .ok true) ∧
    (∃ e, (ApplyUpdates flush1Env emptySt [] ⟨3, 1⟩).1 = .error e) ∧
    lookupDoc (ApplyUpdates flush1Env emptySt [] ⟨3, 1⟩).2 savepointDocID =
      lookupDoc emptySt savepointDocID :=
  ⟨by decide,
   ((claim_C3 flush1Env emptySt [] ⟨3, 1⟩).1 (by decide)).1,
   ((claim_C3 flush1Env emptySt [] ⟨3, 1⟩).1 (by decide)).2⟩

/-- C7: every batch entry is stored at its encoded key as a structured JSON
document body when the classifier accepts its bytes, and otherwise as a single
binary attachment named "valueBytes" with content type
"application/octet-stream" (see `entryDoc`); the write is a blind overwrite —
the conclusion holds for every prior store state `st`, whatever document
previously existed at that key, and no revision is consulted. -/
theorem claim_C7 (env : Env) (st : DBState) (batch : List (CompositeKey × VersionedValue))
    (height : Height) (st' : DBState)
    (h : ApplyUpdates env st batch height = (.ok (), st'))
    (hnodup : (batch.map (fun e => constructCompositeKey e.1.Namespace e.1.Key)).Nodup) :
    ∀ ck vv, (ck, vv) ∈ batch →
      lookupDoc st' (constructCompositeKey ck.Namespace ck.Key) = some (entryDoc env vv) := by
  obtain ⟨st1, hab, hrs⟩ := ApplyUpdates_ok_parts env st batch height st' h
  intro ck vv hmem
  have h1 := applyBatch_writes env batch st st1 hab hnodup ck vv hmem
  have h2 := congrArg Prod.snd hrs
  dsimp only at h2
  rw [← h2, recordSavepoint_lookup env st1 height _ (savepointDocID_ne_composite _ _)]
  exact h1

/-- C7 witness: a two-entry batch (one JSON-shaped value, one binary value)
applied over a store that already holds a document at one of the keys: both
entries end up stored per their classification, overwriting the old document. -/
theorem claim_C7_witness :
    lookupDoc
        (ApplyUpdates okEnv
          ⟨[(constructCompositeKey [110, 115] [107], ⟨some [120], []⟩)], [55], 0, []⟩
          [(⟨[110, 115], [107]⟩, ⟨[123, 125], ⟨1, 1⟩⟩),
           (⟨[110, 115], [108]⟩, ⟨[1, 2, 3], ⟨1, 1⟩⟩)] ⟨5, 2⟩).2
        (constructCompositeKey [110, 115] [107]) =
      some (entryDoc okEnv ⟨[123, 125], ⟨1, 1⟩⟩) ∧
    lookupDoc
        (ApplyUpdates okEnv
          ⟨[(constructCompositeKey [110, 115] [107], ⟨some [120], []⟩)], [55], 0, []⟩
          [(⟨[110, 115], [107]⟩, ⟨[123, 125], ⟨1, 1⟩⟩),
           (⟨[110, 115], [108]⟩, ⟨[1, 2, 3], ⟨1, 1⟩⟩)] ⟨5, 2⟩).2
        (constructCompositeKey [110, 115] [108]) =
      some (entryDoc okEnv ⟨[1, 2, 3], ⟨1, 1⟩⟩) :=
  ⟨claim_C7 okEnv ⟨[(constructCompositeKey [110, 115] [107], ⟨some [120], []⟩)], [55], 0, []⟩
      [(⟨[110, 115], [107]⟩, ⟨[123, 125], ⟨1, 1⟩⟩), (⟨[110, 115], [108]⟩, ⟨[1, 2, 3], ⟨1, 1⟩⟩)]
      ⟨5, 2⟩ _ rfl (by decide) ⟨[110, 115], [107]⟩ ⟨[123, 125], ⟨1, 1⟩⟩ (by decide),
   claim_C7 okEnv ⟨[(constructCompositeKey [110, 115] [107], ⟨some [120], []⟩)], [55], 0, []⟩
      [(⟨[110, 115], [107]⟩, ⟨[123, 125], ⟨1, 1⟩⟩), (⟨[110, 115], [108]⟩, ⟨[1, 2, 3], ⟨1, 1⟩⟩)]
      ⟨5, 2⟩ _ rfl (by decide) ⟨[110, 115], [108]⟩ ⟨[1, 2, 3], ⟨1, 1⟩⟩ (by decide)⟩

/-- C8: `GetStateMultipleKeys` performs its point reads sequentially in list
order (visible in the operation trace) and returns per-key results in the same
order; the first failing read aborts the call, propagating that error with no
partial result list and no reads past the failing key. -/
theorem claim_C8 (env : Env) (st : DBState) (ns : Bytes) (keys : List Bytes) :
    ((∀ k ∈ keys, env.readDocErr (constructCompositeKey ns k) = none) →
      GetStateMultipleKeys env st ns keys =
        (.ok (keys.map (fun k => readStateValue st ns k)),
          { st with trace := st.trace ++
              keys.map (fun k => Op.read (constructCompositeKey ns k)) })) ∧
    (∀ (pre : List Bytes) (kbad : Bytes) (post : List Bytes) (e : String),
      keys = pre ++ kbad :: post →
      (∀ k ∈ pre, env.readDocErr (constructCompositeKey ns k) = none) →
      env.readDocErr (constructCompositeKey ns kbad) = some e →
      GetStateMultipleKeys env st ns keys =
        (.error e,
          { st with trace := st.trace ++
              (pre ++ [kbad]).map (fun k => Op.read (constructCompositeKey ns k)) })) := by
  constructor
  · exact GetStateMultipleKeys_ok env ns keys st
  · intro pre kbad post e hk hpre hbad
    rw [hk]
    exact GetStateMultipleKeys_err env ns pre st kbad post e hpre hbad

/-- C8 witness: with reads of key "b" failing, reading ["a"] succeeds in order,
and reading ["a","b","c"] stops at "b", returns its error, and never reads "c". -/
theorem claim_C8_witness :
    GetStateMultipleKeys multiEnv
      emptySt [110, 115] [[97]] =
      (.ok ([[97]].map (fun k => readStateValue emptySt [110, 115] k)),
        { emptySt with trace := (emptySt.trace ++
            [[97]].map (fun k => Op.read (constructCompositeKey [110, 115] k))) }) ∧
    GetStateMultipleKeys multiEnv
      emptySt [110, 115] [[97], [98], [99]] =
      (.error "boom",
        { emptySt with trace := (emptySt.trace ++
            ([[97]] ++ [[98]]).map (fun k => Op.read (constructCompositeKey [110, 115] k))) }) :=
  ⟨(claim_C8 multiEnv
      emptySt [110, 115] [[97]]).1 (by decide),
   (claim_C8 multiEnv
      emptySt [110, 115] [[97], [98], [99]]).2 [[97]] [98] [[99]] "boom" rfl (by decide) (by decide)⟩

/-- C9: for both scanner types over a pre-fetched batch of n results (with
decodable document ids), a `Next` from cursor position j-1 returns the j-th
decoded record when j < n, and the explicit end-of-sequence signal (nil
record, nil error) when j ≥ n — never an error; the cursor always moves from
j-1 to j, so the sequence is single-pass. -/
theorem claim_C9 (ns : Bytes) (results : List QueryResult) (j : Nat)
    (hwf : ∀ qr ∈ results, (0 : Nat) ∈ qr.ID) :
    (∀ qr, results.get? j = some qr →
      KvScanner.Next ⟨(j : Int) - 1, ns, results⟩ =
        some ((some ⟨⟨ns, keyPart qr.ID⟩, ⟨qr.Value, ⟨1, 1⟩⟩⟩, none),
          ⟨(j : Int), ns, results⟩)) ∧
    (results.length ≤ j →
      KvScanner.Next ⟨(j : Int) - 1, ns, results⟩ =
        some ((none, none), ⟨(j : Int), ns, results⟩)) ∧
    (∀ qr, results.get? j = some qr →
      QueryScanner.Next ⟨(j : Int) - 1, results⟩ =
        some ((some ⟨nsPart qr.ID, keyPart qr.ID, ⟨1, 1⟩, qr.Value⟩, none),
          ⟨(j : Int), results⟩)) ∧
    (results.length ≤ j →
      QueryScanner.Next ⟨(j : Int) - 1, results⟩ =
        some ((none, none), ⟨(j : Int), results⟩)) := by
  have hc : ((j : Int) - 1) + 1 = (j : Int) := by omega
  have hnneg : ¬ ((j : Int) < 0) := by omega
  refine ⟨?_, ?_, ?_, ?_⟩
  · intro qr hqr
    have hjlt : j < results.length := by
      by_contra hge
      push_neg at hge
      rw [List.get?_eq_none.mpr hge] at hqr
      cases hqr
    have hlt : ¬ ((j : Int) ≥ (results.length : Int)) := by omega
    have hsplit : splitCompositeKey qr.ID =
        some (nsPart qr.ID, keyPart qr.ID) := by
      simp [splitCompositeKey, nsPart, keyPart, hwf qr (List.get?_mem hqr)]
    rw [List.get?_eq_getElem?] at hqr
    simp [KvScanner.Next, hc, hlt, hnneg, hqr, hsplit]
  · intro hge
    have hlt : (j : Int) ≥ (results.length : Int) := by omega
    simp [KvScanner.Next, hc, hlt]
  · intro qr hqr
    have hjlt : j < results.length := by
      by_contra hge
      push_neg at hge
      rw [List.get?_eq_none.mpr hge] at hqr
      cases hqr
    have hlt : ¬ ((j : Int) ≥ (results.length : Int)) := by omega
    have hsplit : splitCompositeKey qr.ID =
        some (nsPart qr.ID, keyPart qr.ID) := by
      simp [splitCompositeKey, nsPart, keyPart, hwf qr (List.get?_mem hqr)]
    rw [List.get?_eq_getElem?] at hqr
    simp [QueryScanner.Next, hc, hlt, hnneg, hqr, hsplit]
  · intro hge
    have hlt : (j : Int) ≥ (results.length : Int) := by omega
    simp [QueryScanner.Next, hc, hlt]

/-- C9 witness: a one-record batch; the first `Next` of each scanner returns
the decoded record, the second returns the end signal with no error. -/
theorem claim_C9_witness :
    KvScanner.Next ⟨(0 : Int) - 1, [110, 115], [⟨constructCompositeKey [110, 115] [107], [49]⟩]⟩ =
      some ((some ⟨⟨[110, 115], keyPart (constructCompositeKey [110, 115] [107])⟩,
        ⟨[49], ⟨1, 1⟩⟩⟩, none),
        ⟨(0 : Int), [110, 115], [⟨constructCompositeKey [110, 115] [107], [49]⟩]⟩) ∧
    KvScanner.Next ⟨(1 : Int) - 1, [110, 115], [⟨constructCompositeKey [110, 115] [107], [49]⟩]⟩ =
      some ((none, none), ⟨(1 : Int), [110, 115], [⟨constructCompositeKey [110, 115] [107], [49]⟩]⟩) ∧
    QueryScanner.Next ⟨(0 : Int) - 1, [⟨constructCompositeKey [110, 115] [107], [49]⟩]⟩ =
      some ((some ⟨nsPart (constructCompositeKey [110, 115] [107]),
        keyPart (constructCompositeKey [110, 115] [107]), ⟨1, 1⟩, [49]⟩, none),
        ⟨(0 : Int), [⟨constructCompositeKey [110, 115] [107], [49]⟩]⟩) ∧
    QueryScanner.Next ⟨(1 : Int) - 1, [⟨constructCompositeKey [110, 115] [107], [49]⟩]⟩ =
      some ((none, none), ⟨(1 : Int), [⟨constructCompositeKey [110, 115] [107], [49]⟩]⟩) :=
  ⟨(claim_C9 [110, 115] [⟨constructCompositeKey [110, 115] [107], [49]⟩] 0 (by decide)).1 _ rfl,
   (claim_C9 [110, 115] [⟨constructCompositeKey [110, 115] [107], [49]⟩] 1 (by decide)).2.1
     (by decide),
   (claim_C9 [110, 115] [⟨constructCompositeKey [110, 115] [107], [49]⟩] 0 (by decide)).2.2.1 _ rfl,
   (claim_C9 [110, 115] [⟨constructCompositeKey [110, 115] [107], [49]⟩] 1 (by decide)).2.2.2
     (by decide)⟩

/-- C5: with an empty end key, the end bound of the range scan is the encoded
namespace prefix with its trailing separator rewritten to the sentinel 0x01;
provided the matching documents fit under the 1000-result cap, the fetched
batch contains a row for every stored document of namespace `ns` with key ≥
k1, and every row it contains is a document of namespace `ns` with key ≥ k1 —
never one of a different namespace. -/
theorem claim_C5 (st : DBState) (ns k1 : Bytes) (hns : 0 ∉ ns)
    (hcap : (st.docs.filter (fun p =>
        lexLe (constructCompositeKey ns k1) p.1 && lexLt p.1 (rangeEndKey ns []))).length ≤ 1000) :
    rangeEndKey ns [] = ns ++ [lastKeyIndicator] ∧
    (∀ id d, (id, d) ∈ st.docs → ∀ k', id = constructCompositeKey ns k' →
      lexLe k1 k' = true →
      (⟨id, (docReadBytes d).getD []⟩ : QueryResult) ∈
        (GetStateRangeScanIterator st ns k1 []).results) ∧
    (∀ qr ∈ (GetStateRangeScanIterator st ns k1 []).results,
      ∃ k', qr.ID = constructCompositeKey ns k' ∧ lexLe k1 k' = true) := by
  have hend := rangeEndKey_empty ns
  have hck : ∀ (n k : Bytes), constructCompositeKey n k = n ++ 0 :: k := fun n k => by
    simp [constructCompositeKey, compositeKeySep]
  have hres : (GetStateRangeScanIterator st ns k1 []).results =
      (st.docs.filter (fun p =>
        lexLe (constructCompositeKey ns k1) p.1 && lexLt p.1 (rangeEndKey ns []))).map
        (fun p => ⟨p.1, (docReadBytes p.2).getD []⟩) := by
    unfold GetStateRangeScanIterator readDocRange newKVScanner
    dsimp only
    rw [List.take_of_length_le hcap]
  refine ⟨hend, ?_, ?_⟩
  · intro id d hmem k' hid hk'
    rw [hres]
    refine List.mem_map.mpr ⟨(id, d), List.mem_filter.mpr ⟨hmem, ?_⟩, rfl⟩
    have hrange := (lex_range_iff ns k1 id).mpr
      ⟨k', by rw [hid]; exact hck ns k', hk'⟩
    simp only [hck, hend, lastKeyIndicator, Bool.and_eq_true]
    exact ⟨hrange.1, hrange.2⟩
  · intro qr hqr
    rw [hres] at hqr
    obtain ⟨p, hp, rfl⟩ := List.mem_map.mp hqr
    have hp' := (List.mem_filter.mp hp).2
    rw [hck, hend] at hp'
    simp only [lastKeyIndicator, Bool.and_eq_true] at hp'
    obtain ⟨k', hid, hk'⟩ := (lex_range_iff ns k1 p.1).mp ⟨hp'.1, hp'.2⟩
    exact ⟨k', by rw [hck]; exact hid, hk'⟩

/-- C5 witness: scanning namespace "ns" from "k1" with empty end key uses the
sentinel-adjusted end bound, returns the in-range document ("ns","z"), and the
returned row decodes to namespace "ns" with key ≥ "k1". -/
theorem claim_C5_witness :
    rangeEndKey [110, 115] [] = [110, 115] ++ [lastKeyIndicator] ∧
    (⟨constructCompositeKey [110, 115] [122], [50]⟩ : QueryResult) ∈
      (GetStateRangeScanIterator rangeSt [110, 115] [107, 49] []).results ∧
    (∃ k', (⟨constructCompositeKey [110, 115] [122], [50]⟩ : QueryResult).ID =
        constructCompositeKey [110, 115] k' ∧ lexLe [107, 49] k' = true) :=
  ⟨(claim_C5 rangeSt [110, 115] [107, 49] (by decide) (by decide)).1,
   (claim_C5 rangeSt [110, 115] [107, 49] (by decide) (by decide)).2.1
     (constructCompositeKey [110, 115] [122]) ⟨some [50], []⟩ (by decide) [122] rfl (by decide),
   (claim_C5 rangeSt [110, 115] [107, 49] (by decide) (by decide)).2.2
     ⟨constructCompositeKey [110, 115] [122], [50]⟩ (by decide)⟩
